import Mathlib

/-!
Verification of `notefreq.py`, a converter between musical pitch names,
MIDI numbers and frequencies.

The discrete part of the program (note-name parsing with the regex
`^([A-Ga-g])([bB#♭♯]?)(-?\d+)$`, enharmonic normalization, pitch-class lookup,
pitch-number formatting, and the dispatcher of `main`) is embedded as
computable Lean functions; the transcendental part (`2 ** x`, `math.log2`) is
embedded over the real numbers, with in-range Python float arithmetic
modelled by exact real arithmetic and Python's `round` modelled as
round-half-to-even. The dispatcher is modelled twice: `main_run` keeps
`float()` values as exact rationals with total arithmetic, and `main_full`
refines it with the observable boundary behavior of the conversion to a
double - overflow to infinity, underflow to zero, the `inf`/`nan` spellings -
and the resulting uncaught-`OverflowError` crash of `round` on an infinite
argument, which the error-path analysis depends on.
-/

/-- The canonical pitch-class names (`NOTE_NAMES` in notefreq.py). -/
def NOTE_NAMES : List String :=
  ["C", "C#", "D", "D#"] ++ ["E", "F", "F#", "G"] ++ ["G#", "A", "A#", "B"]

/-- Flat-to-sharp enharmonic table (`ENHARMONICS` in notefreq.py). -/
def ENHARMONICS : List (String × String) :=
  [("DB", "C#"), ("EB", "D#"), ("GB", "F#"), ("AB", "G#"), ("BB", "A#")]

/-- One character of the preprocessing `name.replace('♯', '#').replace('♭', 'b')`. -/
def replAccidentalChar (c : Char) : Char :=
  if c = '♯' then '#' else if c = '♭' then 'b' else c

/-- Membership in the regex character class `[A-Ga-g]` (the note letter). -/
def isNoteLetter (c : Char) : Bool :=
  ('A' ≤ c && c ≤ 'G') || ('a' ≤ c && c ≤ 'g')

/-- Membership in the regex character class `[bB#♭♯]` (the accidental). -/
def isAccidentalChar (c : Char) : Bool :=
  c = 'b' || c = 'B' || c = '#' || c = '♭' || c = '♯'

/-- One step of reading a decimal digit string most-significant-first. -/
def digitStep (a : Nat) (c : Char) : Nat := 10 * a + (c.toNat - 48)

/-- Value of the digit group `\d+` (ASCII digits), as `int()` reads it:
`none` when the list is empty or contains a non-digit. -/
def parseDigits (l : List Char) : Option Nat :=
  if l ≠ [] && l.all Char.isDigit then some (l.foldl digitStep 0)
  else none

/-- Value of the octave group `-?\d+`, as `int()` reads it. -/
def parseOctave (l : List Char) : Option Int :=
  match l with
  | '-' :: rest => (parseDigits rest).map fun n => -(n : Int)
  | _ => (parseDigits l).map fun n => (n : Int)

/-- The accidental+octave tail of the note regex: optional `[bB#♭♯]`, then `-?\d+`.
The two character classes share no character with `-` or the digits, so the
regex match is deterministic. -/
def matchAccOct : List Char → Option (Option Char × Int)
  | c :: rest =>
    if isAccidentalChar c then (parseOctave rest).map fun o => (some c, o)
    else (parseOctave (c :: rest)).map fun o => (none, o)
  | [] => none

/-- The full-anchored regex `^([A-Ga-g])([bB#♭♯]?)(-?\d+)$` of notefreq.py,
returning the three groups (octave already read by `int()`). -/
def matchNote : List Char → Option (Char × Option Char × Int)
  | c :: rest =>
    if isNoteLetter c then (matchAccOct rest).map fun p => (c, p.1, p.2)
    else none
  | [] => none

/-- Lines 27-33 of notefreq.py: upper-case the letter, normalize the accidental
(`b`→`B` then upper-case), and resolve a flat via `ENHARMONICS` with the
`letter + '#'` fallback, dropping the last character (`[:-1]`). Returns the
pitch-class string `letter + accidental` that is looked up in `NOTE_NAMES`. -/
def normalizedClass (letter : Char) (accidental : Option Char) : String :=
  let letter := letter.toUpper
  match accidental with
  | none => String.mk [letter]
  | some a =>
    let a := (if a = 'b' then 'B' else a).toUpper
    if a = 'B' then
      let base := ((ENHARMONICS.lookup (String.mk [letter, 'B'])).getD
        (String.mk [letter, '#'])).dropRight 1
      base ++ "#"
    else String.mk [letter, a]

/-- The two distinct `ValueError`s that can escape `note_to_midi`:
the explicit `raise ValueError(f"Bad note: {name}")`, and the error raised by
`NOTE_NAMES.index` when the class string is absent. Python renders the latter
as `repr(cls) + " is not in list"`; this model omits the repr quote characters
around the class, which none of the verified properties depend on. -/
inductive NoteError where
  | badNote (name : String)
  | notInList (cls : String)
deriving DecidableEq

/-- The message text carried by the `ValueError` (what `sys.exit(e)` prints). -/
def NoteError.message : NoteError → String
  | .badNote n => "Bad note: " ++ n
  | .notInList c => c ++ " is not in list"

instance {ε α : Type} [DecidableEq ε] [DecidableEq α] : DecidableEq (Except ε α) := fun
  | .ok a, .ok b =>
    if h : a = b then .isTrue (by rw [h]) else .isFalse fun hh => h (Except.ok.inj hh)
  | .ok _, .error _ => .isFalse fun hh => Except.noConfusion hh
  | .error _, .ok _ => .isFalse fun hh => Except.noConfusion hh
  | .error e, .error f =>
    if h : e = f then .isTrue (by rw [h]) else .isFalse fun hh => h (Except.error.inj hh)

/-- `note_to_midi` of notefreq.py (lines 22-36): regex match after the Unicode
accidental replacement, flat normalization, class lookup, and
`12 * (octave + 1) + index`. -/
def note_to_midi (name : String) : Except NoteError Int :=
  match matchNote (name.data.map replAccidentalChar) with
  | none => .error (.badNote name)
  | some (letter, accidental, octave) =>
    let cls := normalizedClass letter accidental
    match NOTE_NAMES.indexOf? cls with
    | none => .error (.notInList cls)
    | some index => .ok (12 * (octave + 1) + (index : Int))

/-- `midi_to_note` of notefreq.py (lines 38-41): `NOTE_NAMES[midi % 12]` and
`midi // 12 - 1` (Python's floor-convention `%` and `//` on a positive divisor
coincide with Lean's `Int.emod`/`Int.ediv`). The `getD` default is unreachable
since `midi % 12` always lies in `[0, 12)`. The octave is rendered by
`Int.repr`, Lean's counterpart of the f-string's `str(octave)`. -/
def midi_to_note (midi : Int) : String :=
  let name := NOTE_NAMES.getD (midi % 12).toNat ""
  let octave := midi / 12 - 1
  name ++ Int.repr octave


/-! Real-number part -/

/-- Reference frequency `A4_FREQ = 440.0`. -/
def A4_FREQ : ℝ := 440

/-- Reference MIDI number `A4_MIDI = 69`. -/
def A4_MIDI : Int := 69

/-- `midi_to_freq` of notefreq.py (lines 43-44): `440.0 * 2 ** ((midi - 69) / 12)`,
with Python float arithmetic modelled by exact real arithmetic. -/
noncomputable def midi_to_freq (midi : Int) : ℝ :=
  A4_FREQ * (2 : ℝ) ^ (((midi : ℝ) - (A4_MIDI : ℝ)) / 12)

/-- Python's `round`: round to the nearest integer, ties to the even integer. -/
noncomputable def roundHalfEven (x : ℝ) : Int :=
  if Int.fract x < 1 / 2 then ⌊x⌋
  else if 1 / 2 < Int.fract x then ⌊x⌋ + 1
  else if Even ⌊x⌋ then ⌊x⌋ else ⌊x⌋ + 1

/-- `freq_to_midi` of notefreq.py (lines 46-50): continuous pitch via `log2`,
`round` (half-to-even), and the cents deviation, in exact real arithmetic. -/
noncomputable def freq_to_midi (freq : ℝ) : Int × ℝ :=
  let midi := 12 * Real.logb 2 (freq / A4_FREQ) + (A4_MIDI : ℝ)
  let nearest := roundHalfEven midi
  (nearest, (midi - (nearest : ℝ)) * 100)


/-! Dispatcher (`main` of notefreq.py) -/

/-- Splits at the first `e`/`E`: mantissa and (when present) exponent text. -/
def splitOnExp : List Char → List Char × Option (List Char)
  | [] => ([], none)
  | c :: rest =>
    if c = 'e' || c = 'E' then ([], some rest)
    else (c :: (splitOnExp rest).1, (splitOnExp rest).2)

/-- The mantissa `digits [. digits]` / `. digits` (at least one digit in all),
with its exact rational value. -/
def parseMantissa (l : List Char) : Option ℚ :=
  let ip := l.takeWhile Char.isDigit
  match l.dropWhile Char.isDigit with
  | [] => if ip ≠ [] then some ((ip.foldl digitStep 0 : Nat) : ℚ) else none
  | '.' :: frac =>
    if (ip ≠ [] || frac ≠ []) && frac.all Char.isDigit then
      some (((ip.foldl digitStep 0 : Nat) : ℚ)
        + ((frac.foldl digitStep 0 : Nat) : ℚ) / 10 ^ frac.length)
    else none
  | _ => none

/-- The exponent `[+-]? digits` after `e`/`E`. -/
def parseExpPart : List Char → Option Int
  | '+' :: r => (parseDigits r).map fun n => (n : Int)
  | '-' :: r => (parseDigits r).map fun n => -(n : Int)
  | r => (parseDigits r).map fun n => (n : Int)

/-- An unsigned float literal: mantissa and optional exponent. -/
def parseUnsignedFloat (l : List Char) : Option ℚ :=
  match parseMantissa (splitOnExp l).1, (splitOnExp l).2 with
  | some q, none => some q
  | some q, some ep => (parseExpPart ep).map fun k => q * 10 ^ k
  | none, _ => none

/-- The decimal-literal grammar of Python's `float()`: an optionally signed
decimal literal with optional exponent, with its exact rational value. This is
only the literal grammar; the conversion of that value to an IEEE-754 double
(overflow to infinity, underflow to zero) and the `inf`/`nan` spellings are
layered on top in `pyFloat`. Digit-grouping underscores and non-ASCII decimal
digits, which Python also accepts, are outside the modelled input set
(see `modelledInput`). -/
def parseFloat : List Char → Option ℚ
  | '+' :: rest => parseUnsignedFloat rest
  | '-' :: rest => (parseUnsignedFloat rest).map Neg.neg
  | l => parseUnsignedFloat l

/-- What a successful invocation prints: the frequency line
`f"{note} ({cents:+.2f} cents)"` or the note line `f"{freq:.2f} Hz"`. The
two-decimal string rendering of the float is not modelled (no verified
property depends on it); the payloads are the exact values being printed. -/
inductive Output where
  | freqLine (note : String) (cents : ℝ)
  | hzLine (freq : ℝ)

/-- ASCII whitespace as `str.strip()` removes it (space, tab, newline, carriage
return, vertical tab, form feed; Unicode whitespace is outside this model). -/
def isPySpace (c : Char) : Bool :=
  c = ' ' || c = '\t' || c = '\n' || c = '\r' || c = '\x0b' || c = '\x0c'

/-- `val = args.value.strip()` (line 57): drop whitespace from both ends. -/
def pyStrip (s : String) : String :=
  String.mk (((s.data.dropWhile isPySpace).reverse.dropWhile isPySpace).reverse)

/-- The note-name branch of `main` (lines 67-74): parse the note, exiting via
`sys.exit(e)` (non-zero, message printed) on `ValueError`, else report the
frequency. -/
noncomputable def notePath (val : String) : Except String Output :=
  match note_to_midi val with
  | .error e => .error e.message
  | .ok midi => .ok (.hzLine (midi_to_freq midi))

/-- Idealized dispatcher: `main` of notefreq.py (lines 52-74) after argparse
hands over the single argument, with `float()` values kept as exact rationals
and the frequency branch total. `Except.error msg` models the non-zero
`sys.exit` with `msg` printed; `.ok` models a zero exit with the given line
printed. This idealization has no counterpart of float overflow: `main_full`
below refines it with the float-conversion boundary behavior (overflow and
underflow of `float()`, the `inf`/`nan` spellings) and the resulting
uncaught-`OverflowError` crash path, which the error-path analysis needs. -/
noncomputable def main_run (arg : String) : Except String Output :=
  match parseFloat (pyStrip arg).data with
  | some q =>
    if 0 < q then
      .ok (.freqLine (midi_to_note (freq_to_midi (q : ℝ)).1) (freq_to_midi (q : ℝ)).2)
    else notePath (pyStrip arg)
  | none => notePath (pyStrip arg)


/-! Real lemmas -/

/-- Contiguous-substring test: whether `pat` occurs inside `l`. -/
def hasSubstring : List Char → List Char → Bool
  | [], pat => pat.isEmpty
  | x :: t, pat => Bool.or (pat.isPrefixOf (x :: t)) (hasSubstring t pat)


/-- The input domain on which this development models the program exactly:
ASCII text without digit-grouping underscores, plus the `♯`/`♭` accidental
signs. Outside it Python diverges from the model in ways no claim covers:
`float()` and the regex `\d` accept any Unicode decimal digit, `float()`
accepts underscores between digits, and `str.strip()` removes Unicode
whitespace. -/
def modelledInput (s : String) : Bool :=
  s.data.all fun c => (c.toNat < 128 && c ≠ '_') || c = '♯' || c = '♭'

/-- Magnitude at which `float()` overflows to infinity: decimal values whose
magnitude is at least `2^1024 - 2^970` round (to nearest, ties to even) past
the largest double `2^1024 - 2^971` and yield `inf`. -/
def PY_OVERFLOW : ℚ := 2 ^ 1024 - 2 ^ 970

/-- Magnitude at or below which `float()` underflows to zero: values of
magnitude at most `2^-1075` round (ties to even) to `0.0` rather than to the
smallest subnormal `2^-1074`. -/
def PY_UNDERFLOW : ℚ := 1 / 2 ^ 1075

/-- The value of a Python float as the dispatcher observes it: a finite value
(kept exact), an infinity, or NaN. -/
inductive PyFloat where
  | finite (q : ℚ)
  | inf
  | ninf
  | nan
deriving DecidableEq

/-- The special spellings accepted by `float()` after an optional sign:
`inf`, `infinity` and `nan`, case-insensitively. -/
def parseInfNanBody (l : List Char) (neg : Bool) : Option PyFloat :=
  if l.map Char.toLower = ['i', 'n', 'f'] ||
      l.map Char.toLower = ['i', 'n', 'f', 'i', 'n', 'i', 't', 'y'] then
    some (if neg then .ninf else .inf)
  else if l.map Char.toLower = ['n', 'a', 'n'] then some .nan
  else none

/-- The `inf`/`infinity`/`nan` spellings of `float()`, with an optional sign. -/
def parseInfNan : List Char → Option PyFloat
  | '+' :: rest => parseInfNanBody rest false
  | '-' :: rest => parseInfNanBody rest true
  | l => parseInfNanBody l false

/-- Conversion of an exact literal value to the double `float()` returns:
overflow to the matching infinity, underflow to zero, and otherwise the finite
value itself (rounding of in-range values to 53-bit precision stays under the
exact-real idealization, which no claim's truth depends on). -/
def pyFloatOfRat (q : ℚ) : PyFloat :=
  if PY_OVERFLOW ≤ q then .inf
  else if q ≤ -PY_OVERFLOW then .ninf
  else if -PY_UNDERFLOW ≤ q ∧ q ≤ PY_UNDERFLOW then .finite 0
  else .finite q

/-- `float(val)` itself: the special spellings, else the decimal grammar
followed by the conversion to a double. -/
def pyFloat (l : List Char) : Option PyFloat :=
  match parseInfNan l with
  | some v => some v
  | none =>
    match parseFloat l with
    | some q => some (pyFloatOfRat q)
    | none => none

/-- The three ways one invocation of the program can end: printing a result
line and exiting zero; `sys.exit(e)` printing the error message and exiting
non-zero; or dying on an uncaught exception (a traceback, non-zero exit). -/
inductive RunResult where
  | printed (out : Output)
  | exited (msg : String)
  | crashed

/-- The note-name branch of `main` (lines 67-74) in the refined model:
`sys.exit(e)` on the parser's `ValueError`, else print the frequency. -/
noncomputable def notePathFull (val : String) : RunResult :=
  match note_to_midi val with
  | .error e => .exited e.message
  | .ok midi => .printed (.hzLine (midi_to_freq midi))

/-- `main` of notefreq.py (lines 52-74) with the observable float behavior of
the conversion kept. Branches, against the source:
`float(val)` infinite and positive passes the `freq <= 0` test, and
`round(inf)` inside `freq_to_midi` raises `OverflowError` - not a
`ValueError`, so neither `except` catches it and the process dies with a
traceback (`crashed`); `-inf <= 0` raises the `ValueError` and falls to the
note branch; `float("nan")` fails the `<= 0` test but `round(nan)` raises a
`ValueError` (`cannot convert float NaN to integer`) that the
`except ValueError` catches, again reaching the note branch; finite values
behave as in `main_run`. -/
noncomputable def main_full (arg : String) : RunResult :=
  match pyFloat (pyStrip arg).data with
  | some .inf => .crashed
  | some .ninf => notePathFull (pyStrip arg)
  | some .nan => notePathFull (pyStrip arg)
  | some (.finite q) =>
    if 0 < q then
      .printed (.freqLine (midi_to_note (freq_to_midi (q : ℝ)).1) (freq_to_midi (q : ℝ)).2)
    else notePathFull (pyStrip arg)
  | none => notePathFull (pyStrip arg)


theorem roundHalfEven_intCast (n : Int) : roundHalfEven (n : ℝ) = n := by
  unfold roundHalfEven
  rw [Int.fract_intCast, Int.floor_intCast]
  norm_num

theorem contPitch_midi_to_freq (p : Int) :
    12 * Real.logb 2 (midi_to_freq p / A4_FREQ) + (A4_MIDI : ℝ) = (p : ℝ) := by
  unfold midi_to_freq A4_FREQ A4_MIDI
  rw [mul_comm (440 : ℝ), mul_div_assoc, div_self (by norm_num : (440:ℝ) ≠ 0), mul_one]
  rw [Real.logb_rpow (by norm_num) (by norm_num)]
  push_cast
  ring

theorem roundHalfEven_sub_bound (x : ℝ) :
    -(1/2) ≤ x - (roundHalfEven x : ℝ) ∧ x - (roundHalfEven x : ℝ) ≤ 1/2 := by
  have hd : Int.fract x = x - ⌊x⌋ := rfl
  have h0 : 0 ≤ Int.fract x := Int.fract_nonneg x
  have h1 : Int.fract x < 1 := Int.fract_lt_one x
  unfold roundHalfEven
  split_ifs with hlt hgt hev <;> constructor <;> push_cast <;> linarith

/-- Claim C3 (amended): for every frequency `freq > 0`, the cents value returned
by `freq_to_midi` lies in the closed interval `[-50, 50]`. The original claim's
strict lower bound fails: under round-half-to-even the value `-50` is attained
(see the counterexample). -/
theorem claim_c3 (freq : ℝ) (hf : 0 < freq) :
    -50 ≤ (freq_to_midi freq).2 ∧ (freq_to_midi freq).2 ≤ 50 := by
  unfold freq_to_midi
  have := roundHalfEven_sub_bound (12 * Real.logb 2 (freq / A4_FREQ) + (A4_MIDI : ℝ))
  constructor <;> simp only <;> nlinarith [this.1, this.2]

theorem freq_to_midi_at_balance :
    freq_to_midi (440 * (2:ℝ) ^ ((1:ℝ)/24)) = (70, -50) := by
  unfold freq_to_midi
  have hl : Real.logb 2 ((440 * (2:ℝ) ^ ((1:ℝ)/24)) / A4_FREQ) = 1/24 := by
    unfold A4_FREQ
    rw [mul_comm (440:ℝ), mul_div_assoc, div_self (by norm_num : (440:ℝ) ≠ 0), mul_one,
      Real.logb_rpow (by norm_num) (by norm_num)]
  rw [hl]
  have hmid : 12 * (1/24 : ℝ) + ((A4_MIDI : Int) : ℝ) = 139/2 := by
    unfold A4_MIDI; norm_num
  rw [hmid]
  have hfl : ⌊(139/2 : ℝ)⌋ = 69 := by
    rw [Int.floor_eq_iff] <;> norm_num
  have hround : roundHalfEven (139/2 : ℝ) = 70 := by
    unfold roundHalfEven
    rw [Int.fract, hfl]
    norm_num [Int.even_iff]
  simp only [hround]
  norm_num

/-! Decimal printing round-trip -/

theorem digitChar_isDigit {d : Nat} (h : d < 10) : (Nat.digitChar d).isDigit = true := by
  interval_cases d <;> decide

theorem digitChar_val {d : Nat} (h : d < 10) : (Nat.digitChar d).toNat - 48 = d := by
  interval_cases d <;> decide

theorem toDigitsCore_append (fuel n : Nat) (acc : List Char) :
    Nat.toDigitsCore 10 fuel n acc = Nat.toDigitsCore 10 fuel n [] ++ acc := by
  induction fuel generalizing n acc with
  | zero => simp [Nat.toDigitsCore]
  | succ fuel ih =>
    simp only [Nat.toDigitsCore]
    by_cases h : n / 10 = 0
    · simp [h]
    · simp only [if_neg h]
      rw [ih (n / 10) (Nat.digitChar (n % 10) :: acc), ih (n / 10) [Nat.digitChar (n % 10)]]
      simp

theorem toDigitsCore_digits (fuel : Nat) :
    ∀ n, ∀ c ∈ Nat.toDigitsCore 10 fuel n [], c.isDigit = true := by
  induction fuel with
  | zero => intro n c hc; simp [Nat.toDigitsCore] at hc
  | succ fuel ih =>
    intro n c hc
    simp only [Nat.toDigitsCore] at hc
    by_cases h : n / 10 = 0
    · rw [if_pos h] at hc
      simp at hc
      exact hc ▸ digitChar_isDigit (Nat.mod_lt n (by norm_num))
    · rw [if_neg h, toDigitsCore_append] at hc
      rcases List.mem_append.mp hc with h1 | h2
      · exact ih (n / 10) c h1
      · simp at h2
        exact h2 ▸ digitChar_isDigit (Nat.mod_lt n (by norm_num))

theorem toDigitsCore_ne_nil (fuel n : Nat) (h : 0 < fuel) :
    Nat.toDigitsCore 10 fuel n [] ≠ [] := by
  cases fuel with
  | zero => omega
  | succ fuel =>
    simp only [Nat.toDigitsCore]
    by_cases h0 : n / 10 = 0
    · simp [h0]
    · rw [if_neg h0, toDigitsCore_append]
      simp

theorem toDigitsCore_foldl (fuel : Nat) :
    ∀ n a, n < fuel →
      List.foldl digitStep a (Nat.toDigitsCore 10 fuel n []) =
        a * 10 ^ (Nat.toDigitsCore 10 fuel n []).length + n := by
  induction fuel with
  | zero => intro n a h; omega
  | succ fuel ih =>
    intro n a h
    simp only [Nat.toDigitsCore]
    by_cases h0 : n / 10 = 0
    · have hn : n < 10 := by omega
      rw [if_pos h0]
      simp [digitStep, digitChar_val (Nat.mod_lt n (by norm_num))]
      omega
    · rw [if_neg h0, toDigitsCore_append]
      have hfuel : n / 10 < fuel := by
        have := Nat.div_lt_self (by omega : 0 < n) (by norm_num : 1 < 10)
        omega
      rw [List.foldl_append, ih (n / 10) a hfuel]
      simp [digitStep, digitChar_val (Nat.mod_lt n (by norm_num))]
      rw [pow_succ]
      have := Nat.div_add_mod n 10
      ring_nf
      omega

theorem parseDigits_toDigits (n : Nat) : parseDigits (Nat.toDigits 10 n) = some n := by
  unfold parseDigits Nat.toDigits
  rw [if_pos]
  · rw [toDigitsCore_foldl (n + 1) n 0 (Nat.lt_succ_self n)]
    simp
  · simp only [Bool.and_eq_true, decide_eq_true_eq, List.all_eq_true]
    exact ⟨by simpa using toDigitsCore_ne_nil (n + 1) n (Nat.succ_pos n),
      fun c hc => toDigitsCore_digits (n + 1) n c hc⟩

theorem nat_repr_data (n : Nat) : (Nat.repr n).data = Nat.toDigits 10 n := rfl

theorem int_repr_data (o : Int) :
    (Int.repr o).data = if o < 0 then '-' :: Nat.toDigits 10 o.natAbs
      else Nat.toDigits 10 o.natAbs := by
  cases o with
  | ofNat m =>
    rw [Int.repr, if_neg (by exact Int.not_lt.mpr (Int.ofNat_nonneg m))]
    rfl
  | negSucc m =>
    rw [Int.repr, if_pos (Int.negSucc_lt_zero m)]
    rfl

theorem parseOctave_cons_neg (l : List Char) :
    parseOctave ('-' :: l) = (parseDigits l).map fun n => -(n : Int) := rfl

theorem parseOctave_cons_other (c : Char) (l : List Char) (h : c ≠ '-') :
    parseOctave (c :: l) = (parseDigits (c :: l)).map fun n => (n : Int) := by
  unfold parseOctave
  split
  · rename_i heq
    exact absurd (List.cons.inj heq).1 h
  · rfl

theorem parseOctave_int_repr (o : Int) : parseOctave (Int.repr o).data = some o := by
  rcases lt_or_ge o 0 with ho | ho
  · rw [int_repr_data, if_pos ho, parseOctave_cons_neg, parseDigits_toDigits]
    simp [Int.natCast_natAbs]
    rw [abs_of_neg ho]
    ring
  · rw [int_repr_data, if_neg (by omega)]
    obtain ⟨c, t, hct⟩ : ∃ c t, Nat.toDigits 10 o.natAbs = c :: t := by
      rcases h : Nat.toDigits 10 o.natAbs with _ | ⟨c, t⟩
      · exact absurd h (toDigitsCore_ne_nil _ _ (Nat.succ_pos _))
      · exact ⟨c, t, rfl⟩
    have hdig : c.isDigit = true := by
      apply toDigitsCore_digits
      rw [show Nat.toDigitsCore 10 (o.natAbs + 1) o.natAbs [] = Nat.toDigits 10 o.natAbs from rfl,
        hct]
      exact List.mem_cons_self c t
    have hne : c ≠ '-' := by
      intro hc; rw [hc] at hdig; exact absurd hdig (by decide)
    rw [hct, parseOctave_cons_other c t hne, ← hct, parseDigits_toDigits]
    simp [Int.natCast_natAbs]
    exact ho

theorem repl_of_isDigit {c : Char} (h : c.isDigit = true) : replAccidentalChar c = c := by
  unfold replAccidentalChar
  rw [if_neg, if_neg]
  · intro hc; rw [hc] at h; exact absurd h (by decide)
  · intro hc; rw [hc] at h; exact absurd h (by decide)

theorem map_repl_int_repr (o : Int) :
    (Int.repr o).data.map replAccidentalChar = (Int.repr o).data := by
  have hdig : ∀ c ∈ Nat.toDigits 10 o.natAbs, replAccidentalChar c = c := fun c hc =>
    repl_of_isDigit (toDigitsCore_digits _ _ c hc)
  rw [int_repr_data]
  split
  · rw [List.map_cons]
    rw [show replAccidentalChar '-' = '-' from by decide]
    congr 1
    exact List.map_congr_left hdig |>.trans (List.map_id _)
  · exact (List.map_congr_left hdig).trans (List.map_id _)

theorem matchNote_cons (c : Char) (t : List Char) (h : isNoteLetter c = true) :
    matchNote (c :: t) = (matchAccOct t).map fun p => (c, p.1, p.2) := by
  simp [matchNote, h]

theorem matchAccOct_acc (c : Char) (t : List Char) (h : isAccidentalChar c = true) :
    matchAccOct (c :: t) = (parseOctave t).map fun o => (some c, o) := by
  simp [matchAccOct, h]

theorem matchAccOct_other (c : Char) (t : List Char) (h : isAccidentalChar c = false) :
    matchAccOct (c :: t) = (parseOctave (c :: t)).map fun o => (none, o) := by
  simp [matchAccOct, h]

theorem isAccidental_false_of_digit {c : Char} (h : c.isDigit = true) :
    isAccidentalChar c = false := by
  unfold isAccidentalChar
  have : ∀ x, c = x → x.isDigit = false → c ≠ x := fun x hx hdx => by
    rw [hx] at h; rw [h] at hdx; exact absurd hdx (by simp)
  simp only [Bool.or_eq_false_iff, decide_eq_false_iff_not]
  refine ⟨⟨⟨⟨?_, ?_⟩, ?_⟩, ?_⟩, ?_⟩ <;>
    (intro hc; rw [hc] at h; exact absurd h (by decide))

theorem matchAccOct_int_repr (o : Int) : matchAccOct (Int.repr o).data = some (none, o) := by
  obtain ⟨c, t, hct, hacc⟩ :
      ∃ c t, (Int.repr o).data = c :: t ∧ isAccidentalChar c = false := by
    rw [int_repr_data]
    split
    · exact ⟨'-', _, rfl, by decide⟩
    · rcases h : Nat.toDigits 10 o.natAbs with _ | ⟨c, t⟩
      · exact absurd h (toDigitsCore_ne_nil _ _ (Nat.succ_pos _))
      · refine ⟨c, t, rfl, isAccidental_false_of_digit ?_⟩
        exact toDigitsCore_digits _ _ c (h ▸ List.mem_cons_self c t)
  rw [hct, matchAccOct_other c t hacc, ← hct, parseOctave_int_repr]
  rfl

theorem matchNote_letter_repr (l : Char) (hl : isNoteLetter l = true) (o : Int) :
    matchNote (l :: (Int.repr o).data) = some (l, none, o) := by
  rw [matchNote_cons l _ hl, matchAccOct_int_repr]
  rfl

theorem matchNote_sharp_repr (l : Char) (hl : isNoteLetter l = true) (o : Int) :
    matchNote (l :: '#' :: (Int.repr o).data) = some (l, some '#', o) := by
  rw [matchNote_cons l _ hl, matchAccOct_acc '#' _ (by decide), parseOctave_int_repr]
  rfl

theorem note_to_midi_one (l : Char) (o : Int) (i : Nat)
    (hl : isNoteLetter l = true) (hrepl : replAccidentalChar l = l)
    (hidx : NOTE_NAMES.indexOf? (normalizedClass l none) = some i) :
    note_to_midi (String.mk [l] ++ Int.repr o) = .ok (12 * (o + 1) + i) := by
  unfold note_to_midi
  rw [show (String.mk [l] ++ Int.repr o).data = l :: (Int.repr o).data from rfl,
    List.map_cons, hrepl, map_repl_int_repr, matchNote_letter_repr l hl o]
  simp [hidx]

theorem note_to_midi_two (l : Char) (o : Int) (i : Nat)
    (hl : isNoteLetter l = true) (hrepl : replAccidentalChar l = l)
    (hidx : NOTE_NAMES.indexOf? (normalizedClass l (some '#')) = some i) :
    note_to_midi (String.mk [l, '#'] ++ Int.repr o) = .ok (12 * (o + 1) + i) := by
  unfold note_to_midi
  rw [show (String.mk [l, '#'] ++ Int.repr o).data = l :: '#' :: (Int.repr o).data from rfl,
    List.map_cons, hrepl, List.map_cons,
    show replAccidentalChar '#' = '#' from by decide,
    map_repl_int_repr, matchNote_sharp_repr l hl o]
  simp [hidx]

/-- Claim C10: formatting any integer pitch number with `midi_to_note` and
parsing the result back with `note_to_midi` succeeds and returns the same
pitch number, for every integer including negative ones. -/
theorem claim_c10 (p : Int) : note_to_midi (midi_to_note p) = .ok p := by
  have h0 : 0 ≤ p % 12 := Int.emod_nonneg p (by norm_num)
  have h1 : p % 12 < 12 := Int.emod_lt_of_pos p (by norm_num)
  simp only [midi_to_note]
  obtain ⟨k, hk⟩ : ∃ k : Nat, (p % 12).toNat = k := ⟨_, rfl⟩
  have hk12 : k < 12 := by omega
  rw [hk]
  interval_cases k
  · rw [show NOTE_NAMES.getD 0 "" = String.mk ['C'] from rfl,
      note_to_midi_one 'C' (p / 12 - 1) 0 (by decide) (by decide) (by decide)]
    congr 1
    omega
  · rw [show NOTE_NAMES.getD 1 "" = String.mk ['C', '#'] from rfl,
      note_to_midi_two 'C' (p / 12 - 1) 1 (by decide) (by decide) (by decide)]
    congr 1
    omega
  · rw [show NOTE_NAMES.getD 2 "" = String.mk ['D'] from rfl,
      note_to_midi_one 'D' (p / 12 - 1) 2 (by decide) (by decide) (by decide)]
    congr 1
    omega
  · rw [show NOTE_NAMES.getD 3 "" = String.mk ['D', '#'] from rfl,
      note_to_midi_two 'D' (p / 12 - 1) 3 (by decide) (by decide) (by decide)]
    congr 1
    omega
  · rw [show NOTE_NAMES.getD 4 "" = String.mk ['E'] from rfl,
      note_to_midi_one 'E' (p / 12 - 1) 4 (by decide) (by decide) (by decide)]
    congr 1
    omega
  · rw [show NOTE_NAMES.getD 5 "" = String.mk ['F'] from rfl,
      note_to_midi_one 'F' (p / 12 - 1) 5 (by decide) (by decide) (by decide)]
    congr 1
    omega
  · rw [show NOTE_NAMES.getD 6 "" = String.mk ['F', '#'] from rfl,
      note_to_midi_two 'F' (p / 12 - 1) 6 (by decide) (by decide) (by decide)]
    congr 1
    omega
  · rw [show NOTE_NAMES.getD 7 "" = String.mk ['G'] from rfl,
      note_to_midi_one 'G' (p / 12 - 1) 7 (by decide) (by decide) (by decide)]
    congr 1
    omega
  · rw [show NOTE_NAMES.getD 8 "" = String.mk ['G', '#'] from rfl,
      note_to_midi_two 'G' (p / 12 - 1) 8 (by decide) (by decide) (by decide)]
    congr 1
    omega
  · rw [show NOTE_NAMES.getD 9 "" = String.mk ['A'] from rfl,
      note_to_midi_one 'A' (p / 12 - 1) 9 (by decide) (by decide) (by decide)]
    congr 1
    omega
  · rw [show NOTE_NAMES.getD 10 "" = String.mk ['A', '#'] from rfl,
      note_to_midi_two 'A' (p / 12 - 1) 10 (by decide) (by decide) (by decide)]
    congr 1
    omega
  · rw [show NOTE_NAMES.getD 11 "" = String.mk ['B'] from rfl,
      note_to_midi_one 'B' (p / 12 - 1) 11 (by decide) (by decide) (by decide)]
    congr 1
    omega

/-! Letter / accidental analysis -/

theorem noteLetter_cases {c : Char} (h : isNoteLetter c = true) :
    c ∈ (['A', 'B', 'C', 'D', 'E', 'F', 'G', 'a', 'b', 'c', 'd', 'e', 'f', 'g'] : List Char) := by
  unfold isNoteLetter at h
  simp only [Bool.or_eq_true, Bool.and_eq_true, decide_eq_true_eq] at h
  have hval : (65 ≤ c.toNat ∧ c.toNat ≤ 71) ∨ (97 ≤ c.toNat ∧ c.toNat ≤ 103) := by
    rcases h with ⟨h1, h2⟩ | ⟨h1, h2⟩
    · exact Or.inl ⟨h1, h2⟩
    · exact Or.inr ⟨h1, h2⟩
  have hof := Char.ofNat_toNat c
  obtain ⟨k, hk⟩ : ∃ k : Nat, c.toNat = k := ⟨_, rfl⟩
  rw [hk] at hval hof
  simp only [List.mem_cons, List.mem_singleton]
  rcases hval with ⟨ha, hb⟩ | ⟨ha, hb⟩ <;> interval_cases k <;> subst hof <;> decide

theorem accidental_cases {c : Char} (h : isAccidentalChar c = true) :
    c = 'b' ∨ c = 'B' ∨ c = '#' ∨ c = '♭' ∨ c = '♯' := by
  unfold isAccidentalChar at h
  simp only [Bool.or_eq_true, decide_eq_true_eq] at h
  tauto

theorem repl_ne_unicode (c : Char) :
    replAccidentalChar c ≠ '♭' ∧ replAccidentalChar c ≠ '♯' := by
  unfold replAccidentalChar
  split
  · exact ⟨by decide, by decide⟩
  · split
    · exact ⟨by decide, by decide⟩
    · rename_i h1 h2
      exact ⟨h2, h1⟩

theorem matchNote_nil : matchNote [] = none := rfl

theorem matchNote_cons_not (c : Char) (t : List Char) (h : isNoteLetter c = false) :
    matchNote (c :: t) = none := by
  simp [matchNote, h]

theorem matchNote_inv {l : List Char} {c : Char} {a : Option Char} {o : Int}
    (h : matchNote l = some (c, a, o)) :
    ∃ t, l = c :: t ∧ isNoteLetter c = true ∧ matchAccOct t = some (a, o) := by
  cases l with
  | nil => rw [matchNote_nil] at h; exact absurd h (by simp)
  | cons x t =>
    by_cases hx : isNoteLetter x
    · rw [matchNote_cons x t hx] at h
      cases hm : matchAccOct t with
      | none => rw [hm] at h; simp at h
      | some p =>
        rw [hm, Option.map_some'] at h
        obtain ⟨hxc, hpa, hpo⟩ : x = c ∧ p.1 = a ∧ p.2 = o := by
          have := Option.some.inj h
          exact ⟨congrArg Prod.fst this, congrArg (fun q => q.2.1) this,
            congrArg (fun q => q.2.2) this⟩
        subst hxc
        exact ⟨t, rfl, hx, by rw [hm, ← hpa, ← hpo]⟩
    · rw [matchNote_cons_not x t (by simpa using hx)] at h
      exact absurd h (by simp)

theorem matchAccOct_inv {t : List Char} {a : Option Char} {o : Int}
    (h : matchAccOct t = some (a, o)) :
    a = none ∨ ∃ x t', a = some x ∧ t = x :: t' ∧ isAccidentalChar x = true := by
  cases t with
  | nil => exact absurd h (by simp [matchAccOct])
  | cons x t' =>
    by_cases hx : isAccidentalChar x
    · rw [matchAccOct_acc x t' hx] at h
      cases hp : parseOctave t' with
      | none => rw [hp] at h; simp at h
      | some o' =>
        rw [hp, Option.map_some'] at h
        have := Option.some.inj h
        exact Or.inr ⟨x, t', (congrArg Prod.fst this).symm, rfl, hx⟩
    · rw [matchAccOct_other x t' (by simpa using hx)] at h
      cases hp : parseOctave (x :: t') with
      | none => rw [hp] at h; simp at h
      | some o' =>
        rw [hp, Option.map_some'] at h
        have := Option.some.inj h
        exact Or.inl (congrArg Prod.fst this).symm

theorem normalizedClass_congr (l1 l2 : Char) (a : Option Char) (h : l1.toUpper = l2.toUpper) :
    normalizedClass l1 a = normalizedClass l2 a := by
  unfold normalizedClass
  rw [h]

theorem note_to_midi_case (c1 c2 : Char) (rest : List Char) (m : Int)
    (h1 : replAccidentalChar c1 = c1) (h2 : replAccidentalChar c2 = c2)
    (hl1 : isNoteLetter c1 = true) (hl2 : isNoteLetter c2 = true)
    (hup : c1.toUpper = c2.toUpper)
    (h : note_to_midi (String.mk (c1 :: rest)) = .ok m) :
    note_to_midi (String.mk (c2 :: rest)) = .ok m := by
  unfold note_to_midi at h ⊢
  rw [show (String.mk (c1 :: rest)).data = c1 :: rest from rfl, List.map_cons, h1,
    matchNote_cons _ _ hl1] at h
  rw [show (String.mk (c2 :: rest)).data = c2 :: rest from rfl, List.map_cons, h2,
    matchNote_cons _ _ hl2]
  cases hm : matchAccOct (rest.map replAccidentalChar) with
  | none => rw [hm] at h; simp at h
  | some p =>
    rw [hm] at h
    simp only [Option.map_some'] at h ⊢
    rw [normalizedClass_congr c2 c1 p.1 hup.symm]
    exact h

theorem note_letter_case_insensitive (c : Char) (rest : List Char) (m : Int)
    (h : note_to_midi (String.mk (c :: rest)) = .ok m) :
    note_to_midi (String.mk (c.toUpper :: rest)) = .ok m ∧
    note_to_midi (String.mk (c.toLower :: rest)) = .ok m := by
  by_cases hflat : c = '♭'
  · subst hflat
    rw [show ('♭'.toUpper) = '♭' from by decide, show ('♭'.toLower) = '♭' from by decide]
    exact ⟨h, h⟩
  by_cases hsharp : c = '♯'
  · exfalso
    subst hsharp
    unfold note_to_midi at h
    rw [show (String.mk ('♯' :: rest)).data = '♯' :: rest from rfl, List.map_cons,
      show replAccidentalChar '♯' = '#' from by decide,
      matchNote_cons_not '#' _ (by decide)] at h
    exact absurd h (by simp)
  have hrepl : replAccidentalChar c = c := by
    unfold replAccidentalChar
    rw [if_neg hsharp, if_neg hflat]
  have hl : isNoteLetter c = true := by
    by_cases hcl : isNoteLetter c
    · exact hcl
    · exfalso
      unfold note_to_midi at h
      rw [show (String.mk (c :: rest)).data = c :: rest from rfl, List.map_cons, hrepl,
        matchNote_cons_not c _ (by simpa using hcl)] at h
      exact absurd h (by simp)
  have hc := noteLetter_cases hl
  fin_cases hc <;>
    exact ⟨note_to_midi_case _ _ rest m (by decide) (by decide) (by decide) (by decide)
        (by decide) h,
      note_to_midi_case _ _ rest m (by decide) (by decide) (by decide) (by decide) (by decide) h⟩

theorem matched_class_canonical {s : String} {l : Char} {a : Option Char} {o : Int}
    (h : matchNote (s.data.map replAccidentalChar) = some (l, a, o))
    (hBE : a = some '#' → l.toUpper ≠ 'B' ∧ l.toUpper ≠ 'E') :
    normalizedClass l a ∈ NOTE_NAMES := by
  obtain ⟨t, hlt, hl, hm⟩ := matchNote_inv h
  have ha := matchAccOct_inv hm
  have ha2 : a = none ∨ a = some 'b' ∨ a = some 'B' ∨ a = some '#' := by
    rcases ha with rfl | ⟨x, t', rfl, htx, hx⟩
    · exact Or.inl rfl
    · obtain ⟨y, hy⟩ : ∃ y, replAccidentalChar y = x := by
        have hmem : x ∈ s.data.map replAccidentalChar := by
          rw [hlt, htx]
          exact List.mem_cons_of_mem _ (List.mem_cons_self _ _)
        obtain ⟨y, hmy, hyr⟩ := List.mem_map.mp hmem
        exact ⟨y, hyr⟩
      rcases accidental_cases hx with h5 | h5 | h5 | h5 | h5 <;> subst h5
      · tauto
      · tauto
      · tauto
      · exact absurd hy (repl_ne_unicode y).1
      · exact absurd hy (repl_ne_unicode y).2
  have hc := noteLetter_cases hl
  fin_cases hc <;>
    rcases ha2 with rfl | rfl | rfl | rfl <;>
    first
      | decide
      | exact absurd (by decide) (hBE rfl).1
      | exact absurd (by decide) (hBE rfl).2

/-! Dispatcher lemmas -/

theorem isNoteLetter_false_of_lt {c : Char} (h : c.toNat < 65) : isNoteLetter c = false := by
  unfold isNoteLetter
  simp only [Bool.or_eq_false_iff, Bool.and_eq_false_iff, decide_eq_false_iff_not]
  constructor
  · left
    intro hh
    have h65 : 65 ≤ c.toNat := hh
    omega
  · left
    intro hh
    have h97 : 97 ≤ c.toNat := hh
    omega

theorem toNat_lt_of_isDigit {c : Char} (h : c.isDigit = true) : c.toNat < 65 := by
  simp only [Char.isDigit, Bool.and_eq_true, decide_eq_true_eq] at h
  have h2 : c.toNat ≤ 57 := h.2
  omega

theorem parseMantissa_head {c : Char} {m : List Char} {q : ℚ}
    (h : parseMantissa (c :: m) = some q) : c.isDigit = true ∨ c = '.' := by
  by_cases hd : c.isDigit = true
  · exact Or.inl hd
  by_cases hdot : c = '.'
  · exact Or.inr hdot
  exfalso
  unfold parseMantissa at h
  rw [List.dropWhile_cons, if_neg hd] at h
  split at h
  · rename_i heq
    exact List.noConfusion heq
  · rename_i heq
    exact hdot (List.cons.inj heq).1
  · exact Option.noConfusion h

theorem parseUnsignedFloat_head {c : Char} {m : List Char} {q : ℚ}
    (h : parseUnsignedFloat (c :: m) = some q) : c.isDigit = true ∨ c = '.' := by
  unfold parseUnsignedFloat at h
  by_cases he : (c = 'e' || c = 'E') = true
  · exfalso
    have hs : splitOnExp (c :: m) = ([], some m) := by
      unfold splitOnExp
      rw [if_pos he]
    rw [hs] at h
    rw [show parseMantissa ([], some (m : List Char)).1 = none from rfl] at h
    exact Option.noConfusion h
  · have hs : splitOnExp (c :: m) = (c :: (splitOnExp m).1, (splitOnExp m).2) := by
      conv_lhs => unfold splitOnExp
      rw [if_neg he]
    rw [hs] at h
    cases hmant : parseMantissa (c :: (splitOnExp m).1) with
    | none =>
      rw [show (c :: (splitOnExp m).1, (splitOnExp m).2).1 = c :: (splitOnExp m).1 from rfl,
        hmant] at h
      cases hb : (c :: (splitOnExp m).1, (splitOnExp m).2).2 <;> rw [hb] at h <;>
        exact Option.noConfusion h
    | some q2 =>
      exact parseMantissa_head hmant

theorem parseFloat_no_note {l : List Char} {q : ℚ} (h : parseFloat l = some q) :
    matchNote (l.map replAccidentalChar) = none := by
  cases l with
  | nil =>
    rw [show parseFloat [] = none from rfl] at h
    exact Option.noConfusion h
  | cons c t =>
    unfold parseFloat at h
    split at h
    · rename_i rest heq
      rw [(List.cons.inj heq).1]
      rw [List.map_cons, show replAccidentalChar '+' = '+' from by decide]
      exact matchNote_cons_not '+' _ (by decide)
    · rename_i rest heq
      rw [(List.cons.inj heq).1]
      rw [List.map_cons, show replAccidentalChar '-' = '-' from by decide]
      exact matchNote_cons_not '-' _ (by decide)
    · rcases parseUnsignedFloat_head h with hd | hdot
      · rw [List.map_cons, repl_of_isDigit hd]
        exact matchNote_cons_not c _ (isNoteLetter_false_of_lt (toNat_lt_of_isDigit hd))
      · subst hdot
        rw [List.map_cons, show replAccidentalChar '.' = '.' from by decide]
        exact matchNote_cons_not '.' _ (by decide)

theorem isPrefixOf_refl (l : List Char) : l.isPrefixOf l = true := by
  induction l with
  | nil => rfl
  | cons x t ih => simp [List.isPrefixOf, ih]

theorem hasSubstring_suffix (a b : List Char) : hasSubstring (a ++ b) b = true := by
  induction a with
  | nil =>
    cases b with
    | nil => rfl
    | cons x t =>
      show Bool.or ((x :: t).isPrefixOf (x :: t)) (hasSubstring t (x :: t)) = true
      rw [isPrefixOf_refl]
      rfl
  | cons c a2 ih =>
    show Bool.or (b.isPrefixOf (c :: (a2 ++ b))) (hasSubstring (a2 ++ b) b) = true
    rw [ih, Bool.or_true]

theorem main_run_nonpos {s : String} {q : ℚ}
    (hp : parseFloat (pyStrip s).data = some q) (hq : q ≤ 0) :
    main_run s = .error ("Bad note: " ++ (pyStrip s)) := by
  have hmatch : matchNote ((pyStrip s).data.map replAccidentalChar) = none := parseFloat_no_note hp
  have hnote : note_to_midi (pyStrip s) = .error (.badNote (pyStrip s)) := by
    unfold note_to_midi
    rw [hmatch]
  unfold main_run
  simp only [hp, if_neg (not_lt.mpr hq)]
  unfold notePath
  rw [hnote]
  rfl

theorem indexOf?_isSome_of_mem {a : String} {l : List String} (h : a ∈ l) :
    (l.indexOf? a).isSome = true := by
  induction l with
  | nil => simp at h
  | cons x t ih =>
    rw [List.indexOf?, List.findIdx?_cons]
    by_cases hx : x == a
    · simp [hx]
    · have hat : a ∈ t := by
        rcases List.mem_cons.mp h with rfl | hmem
        · simp at hx
        · exact hmem
      simp only [hx]
      simp only [List.indexOf?] at ih
      simp [ih hat]


theorem toLower_eq_of_lt {c : Char} (h : c.toNat < 65) : c.toLower = c := by
  show (if c.toNat ≥ 65 ∧ c.toNat ≤ 90 then Char.ofNat (c.toNat + 32) else c) = c
  rw [if_neg]
  intro hh
  omega

theorem parseInfNanBody_none_of_lt {c : Char} {m : List Char} (b : Bool) (h : c.toNat < 65) :
    parseInfNanBody (c :: m) b = none := by
  have hlow : (c :: m).map Char.toLower = c :: m.map Char.toLower := by
    rw [List.map_cons, toLower_eq_of_lt h]
  have hni : c ≠ 'i' := by
    intro hh
    subst hh
    exact absurd h (by decide)
  have hnn : c ≠ 'n' := by
    intro hh
    subst hh
    exact absurd h (by decide)
  unfold parseInfNanBody
  rw [if_neg, if_neg]
  · rw [hlow]
    intro hh
    exact hnn (List.cons.inj hh).1
  · simp only [Bool.or_eq_true, decide_eq_true_eq, hlow]
    rintro (hh | hh) <;> exact hni (List.cons.inj hh).1

theorem parseUnsignedFloat_nil : parseUnsignedFloat [] = none := rfl

theorem parseInfNanBody_none_of_parse {m : List Char} {q2 : ℚ} (b : Bool)
    (hm : parseUnsignedFloat m = some q2) : parseInfNanBody m b = none := by
  cases m with
  | nil =>
    rw [parseUnsignedFloat_nil] at hm
    exact Option.noConfusion hm
  | cons c2 m2 =>
    rcases parseUnsignedFloat_head hm with hd | hdot
    · exact parseInfNanBody_none_of_lt b (toNat_lt_of_isDigit hd)
    · subst hdot
      exact parseInfNanBody_none_of_lt b (by decide)

theorem parseInfNan_none_of_parseFloat {l : List Char} {q : ℚ} (h : parseFloat l = some q) :
    parseInfNan l = none := by
  cases l with
  | nil =>
    rw [show parseFloat [] = none from rfl] at h
    exact Option.noConfusion h
  | cons c t =>
    unfold parseFloat at h
    unfold parseInfNan
    split at h
    · exact parseInfNanBody_none_of_parse false h
    · rename_i rest heq
      obtain ⟨q2, hq2⟩ : ∃ q2, parseUnsignedFloat rest = some q2 := by
        cases hu : parseUnsignedFloat rest with
        | none => rw [hu] at h; exact absurd h (by simp)
        | some q2 => exact ⟨q2, rfl⟩
      exact parseInfNanBody_none_of_parse true hq2
    · exact parseInfNanBody_none_of_parse false h

theorem pyFloat_inf_of_overflow {l : List Char} {q : ℚ}
    (h : parseFloat l = some q) (hq : PY_OVERFLOW ≤ q) :
    pyFloat l = some PyFloat.inf := by
  unfold pyFloat
  simp only [parseInfNan_none_of_parseFloat h, h]
  unfold pyFloatOfRat
  rw [if_pos hq]

theorem notePathFull_exited_inv {v msg : String} (h : notePathFull v = .exited msg) :
    ∃ e, note_to_midi v = .error e ∧ msg = NoteError.message e := by
  unfold notePathFull at h
  cases hn : note_to_midi v with
  | error e =>
    rw [hn] at h
    exact ⟨e, rfl, (RunResult.exited.inj h).symm⟩
  | ok m =>
    rw [hn] at h
    exact absurd h (by simp)

theorem main_full_note_branch {s : String}
    (h : pyFloat (pyStrip s).data = none ∨ pyFloat (pyStrip s).data = some .ninf ∨
      pyFloat (pyStrip s).data = some .nan ∨
      ∃ q, pyFloat (pyStrip s).data = some (.finite q) ∧ q ≤ 0) :
    main_full s = notePathFull (pyStrip s) := by
  unfold main_full
  rcases h with hp | hp | hp | ⟨q, hp, hq⟩
  · simp only [hp]
  · simp only [hp]
  · simp only [hp]
  · simp only [hp]
    rw [if_neg (not_lt.mpr hq)]

theorem main_full_exited_inv {s msg : String} (h : main_full s = .exited msg) :
    ∃ e, note_to_midi (pyStrip s) = .error e ∧ msg = NoteError.message e := by
  unfold main_full at h
  cases hp : pyFloat (pyStrip s).data with
  | none =>
    simp only [hp] at h
    exact notePathFull_exited_inv h
  | some v =>
    cases v with
    | inf =>
      simp only [hp] at h
      exact absurd h (by simp)
    | ninf =>
      simp only [hp] at h
      exact notePathFull_exited_inv h
    | nan =>
      simp only [hp] at h
      exact notePathFull_exited_inv h
    | finite q =>
      simp only [hp] at h
      by_cases hq : 0 < q
      · rw [if_pos hq] at h
        exact absurd h (by simp)
      · rw [if_neg hq] at h
        exact notePathFull_exited_inv h

theorem main_full_badNote {s : String}
    (hreach : pyFloat (pyStrip s).data = none ∨ pyFloat (pyStrip s).data = some .ninf ∨
      pyFloat (pyStrip s).data = some .nan ∨
      ∃ q, pyFloat (pyStrip s).data = some (.finite q) ∧ q ≤ 0)
    (hmatch : matchNote ((pyStrip s).data.map replAccidentalChar) = none) :
    main_full s = .exited ("Bad note: " ++ pyStrip s) := by
  rw [main_full_note_branch hreach]
  unfold notePathFull
  rw [show note_to_midi (pyStrip s) = .error (.badNote (pyStrip s)) from by
    unfold note_to_midi
    rw [hmatch]]
  rfl

theorem main_full_crashed {s : String} (h : pyFloat (pyStrip s).data = some PyFloat.inf) :
    main_full s = .crashed := by
  unfold main_full
  simp only [h]


/-! Claim theorems -/

/-- Claim C1: for every integer pitch number `p`, `freq_to_midi (midi_to_freq p)`
returns `p` as the nearest pitch number with a cents value of exactly `0`
(in the exact-arithmetic model; the claim allows a `1e-6` float tolerance). -/
theorem claim_c1 (p : Int) : freq_to_midi (midi_to_freq p) = (p, 0) := by
  unfold freq_to_midi
  rw [contPitch_midi_to_freq]
  simp [roundHalfEven_intCast]

/-- Claim C2 counterexample: the input `"B#4"` is accepted by the note pattern,
but the normalization step produces the pitch-class string `"B#"`, which is not
one of the 12 canonical class names, so the `NOTE_NAMES.index` lookup fails:
the internal invariant-violation branch is reachable. -/
theorem claim_c2_counterexample :
    matchNote ("B#4".data.map replAccidentalChar) = some ('B', some '#', 4) ∧
    normalizedClass 'B' (some '#') = "B#" ∧
    ("B#" ∈ NOTE_NAMES → False) ∧
    note_to_midi "B#4" = .error (.notInList "B#") := by decide

/-- Claim C2 (amended): for every input accepted by the note pattern whose
accidental group is not a sharp on the letters B/E, the normalized pitch-class
string is one of the 12 canonical class names and the index lookup succeeds.
(The unamended claim fails on `"B#4"` and `"E#4"`, whose classes `B#`/`E#` are
not canonical.) -/
theorem claim_c2 (s : String) (l : Char) (a : Option Char) (o : Int)
    (h : matchNote (s.data.map replAccidentalChar) = some (l, a, o))
    (hBE : a = some '#' → l.toUpper ≠ 'B' ∧ l.toUpper ≠ 'E') :
    normalizedClass l a ∈ NOTE_NAMES ∧
    (NOTE_NAMES.indexOf? (normalizedClass l a)).isSome = true := by
  have hm := matched_class_canonical h hBE
  exact ⟨hm, indexOf?_isSome_of_mem hm⟩

/-- Witness for claim C2 at the concrete input `"C#4"`. -/
theorem claim_c2_witness :
    matchNote ("C#4".data.map replAccidentalChar) = some ('C', some '#', 4) ∧
    (normalizedClass 'C' (some '#') ∈ NOTE_NAMES ∧
      (NOTE_NAMES.indexOf? (normalizedClass 'C' (some '#'))).isSome = true) :=
  ⟨by decide, claim_c2 "C#4" 'C' (some '#') 4 (by decide) (by decide)⟩

/-- Witness for claim C3 at the concrete frequency `440`. -/
theorem claim_c3_witness :
    (0 : ℝ) < 440 ∧ (-50 ≤ (freq_to_midi 440).2 ∧ (freq_to_midi 440).2 ≤ 50) :=
  ⟨by norm_num, claim_c3 440 (by norm_num)⟩

/-- Claim C3 counterexample: at the positive frequency `440 * 2 ^ (1/24)` the
continuous pitch is exactly `69.5`; round-half-to-even rounds it up to the even
integer `70`, so the cents value is exactly `-50`, which is not strictly
greater than `-50` as the original claim requires. -/
theorem claim_c3_counterexample :
    0 < 440 * (2:ℝ) ^ ((1:ℝ)/24) ∧
    (freq_to_midi (440 * (2:ℝ) ^ ((1:ℝ)/24))).2 = -50 ∧
    ¬(-50 < (freq_to_midi (440 * (2:ℝ) ^ ((1:ℝ)/24))).2) := by
  have h := freq_to_midi_at_balance
  refine ⟨by positivity, ?_, ?_⟩
  · rw [h]
  · rw [h]
    norm_num

/-- Claim C4 counterexample: `note_to_midi "A-1"` is `9`, not `0`, and
`midi_to_note 0` is `"C-1"`, not `"A-1"` (pitch number 0 is C-1 under the
MIDI convention the code implements). -/
theorem claim_c4_counterexample :
    note_to_midi "A-1" = .ok 9 ∧ (9 : Int) ≠ 0 ∧
    midi_to_note 0 = "C-1" ∧ "C-1" ≠ "A-1" := by decide

/-- Claim C4 (amended): `"A-1"` parses to pitch number `9`, and `midi_to_note 9`
returns `"A-1"`; negative octaves round-trip, but the pitch number paired with
`"A-1"` is 9, not 0. -/
theorem claim_c4 : note_to_midi "A-1" = .ok 9 ∧ midi_to_note 9 = "A-1" := by decide

/-- Claim C5 counterexample: two inputs refute the original claim. On `"B#4"`
note parsing fails in the class lookup and the program exits non-zero with the
message `B# is not in list` (Python renders it with quotes around `B#`), which
does not contain the offending input verbatim; and on `"inf"` the program does
not reach note parsing at all: `float("inf")` is positive infinity, `round`
raises an uncaught `OverflowError`, and the process dies with a traceback - a
non-zero outcome that is not the note-parse failure path. -/
theorem claim_c5_counterexample :
    main_full "B#4" = .exited "B# is not in list" ∧
    hasSubstring "B# is not in list".data "B#4".data = false ∧
    pyFloat (pyStrip "inf").data = some PyFloat.inf ∧
    main_full "inf" = RunResult.crashed ∧
    main_full "1e400" = RunResult.crashed := by
  refine ⟨?_, by decide, by decide, ?_, ?_⟩
  · have h1 : pyStrip "B#4" = "B#4" := by decide
    unfold main_full
    rw [h1]
    simp only [show pyFloat "B#4".data = none from by decide]
    unfold notePathFull
    rw [show note_to_midi "B#4" = .error (.notInList "B#") from by decide]
    rfl
  · unfold main_full
    simp only [show pyFloat (pyStrip "inf").data = some PyFloat.inf from by decide]
  · apply main_full_crashed
    rw [show pyStrip "1e400" = "1e400" from by decide]
    apply pyFloat_inf_of_overflow
    · show parseFloat "1e400".data = some ((1 : ℚ) * 10 ^ (400 : Int))
      simp +decide [parseFloat, parseUnsignedFloat, splitOnExp, parseMantissa, parseExpPart,
        parseDigits, digitStep]
    · norm_num [PY_OVERFLOW]

/-- Claim C5 (amended): over the modelled input set, every `sys.exit` non-zero
exit of the dispatcher comes from a note-parse failure and prints that
failure's message, and every input that reaches note parsing and fails the
pattern match exits non-zero with `Bad note: <stripped input>`, containing the
stripped input verbatim; but the note-parse path is not the only non-zero
outcome: a float value of positive infinity - the `inf`/`infinity` spellings,
or any decimal literal at or above the double overflow threshold
`2^1024 - 2^970` - crashes the process with an uncaught `OverflowError`
from `round`. -/
theorem claim_c5 :
    (∀ s msg, modelledInput s = true → main_full s = .exited msg →
      ∃ e, note_to_midi (pyStrip s) = .error e ∧ msg = NoteError.message e) ∧
    (∀ s, modelledInput s = true →
      (pyFloat (pyStrip s).data = none ∨ pyFloat (pyStrip s).data = some .ninf ∨
        pyFloat (pyStrip s).data = some .nan ∨
        ∃ q, pyFloat (pyStrip s).data = some (.finite q) ∧ q ≤ 0) →
      matchNote ((pyStrip s).data.map replAccidentalChar) = none →
      main_full s = .exited ("Bad note: " ++ pyStrip s) ∧
      hasSubstring ("Bad note: " ++ pyStrip s).data (pyStrip s).data = true) ∧
    (∀ s, pyFloat (pyStrip s).data = some PyFloat.inf → main_full s = RunResult.crashed) ∧
    (∀ (l : List Char) (q : ℚ), parseFloat l = some q → PY_OVERFLOW ≤ q →
      pyFloat l = some PyFloat.inf) := by
  refine ⟨fun s msg _ h => main_full_exited_inv h, ?_,
    fun s h => main_full_crashed h, fun l q h hq => pyFloat_inf_of_overflow h hq⟩
  intro s _ hreach hmatch
  refine ⟨main_full_badNote hreach hmatch, ?_⟩
  show hasSubstring ("Bad note: ".data ++ (pyStrip s).data) (pyStrip s).data = true
  exact hasSubstring_suffix _ _

/-- Witness for claim C5: the pattern-failure part at the concrete input
`"Z9"`, the crash part at `"inf"`, and the overflow part at the decimal
literal `"1e400"`. -/
theorem claim_c5_witness :
    modelledInput "Z9" = true ∧
    (main_full "Z9" = .exited ("Bad note: " ++ pyStrip "Z9") ∧
      hasSubstring ("Bad note: " ++ pyStrip "Z9").data (pyStrip "Z9").data = true) ∧
    main_full "inf" = RunResult.crashed ∧
    pyFloat "1e400".data = some PyFloat.inf :=
  ⟨by decide, claim_c5.2.1 "Z9" (by decide) (Or.inl (by decide)) (by decide),
    claim_c5.2.2.1 "inf" (by decide),
    claim_c5.2.2.2 "1e400".data ((1 : ℚ) * 10 ^ (400 : Int))
      (by
        simp +decide [parseFloat, parseUnsignedFloat, splitOnExp, parseMantissa, parseExpPart,
          parseDigits, digitStep])
      (by norm_num [PY_OVERFLOW])⟩

/-- Claim C6: `"Cb4"` parses successfully to the same pitch number 61 as
`"C#4"` (the flat-fallback appends `#` when `CB` is missing from the
enharmonic table), not to 59 (B3). -/
theorem claim_c6 :
    note_to_midi "Cb4" = note_to_midi "C#4" ∧ note_to_midi "Cb4" = .ok 61 ∧
    note_to_midi "Cb4" ≠ .ok 59 := by decide

/-- Claim C7: every input whose stripped form parses as a number with value
at most zero is not treated as a frequency: it is attempted as a note name,
which fails with the `Bad note` (InvalidNoteFormat) error, since a numeric
string never matches the note pattern. -/
theorem claim_c7 (s : String) (q : ℚ) (hp : parseFloat (pyStrip s).data = some q)
    (hq : q ≤ 0) :
    note_to_midi (pyStrip s) = .error (.badNote (pyStrip s)) ∧
    main_run s = .error ("Bad note: " ++ pyStrip s) := by
  have hmatch := parseFloat_no_note hp
  constructor
  · unfold note_to_midi
    rw [hmatch]
  · exact main_run_nonpos hp hq

/-- Witness for claim C7 at the concrete inputs `"-5"` and `"0"`. -/
theorem claim_c7_witness :
    (parseFloat (pyStrip "-5").data = some (-5) ∧ (-5 : ℚ) ≤ 0 ∧
      main_run "-5" = .error ("Bad note: " ++ pyStrip "-5")) ∧
    (parseFloat (pyStrip "0").data = some 0 ∧ (0 : ℚ) ≤ 0 ∧
      main_run "0" = .error ("Bad note: " ++ pyStrip "0")) :=
  ⟨⟨by decide, by norm_num, (claim_c7 "-5" (-5) (by decide) (by norm_num)).2⟩,
   ⟨by decide, by norm_num, (claim_c7 "0" 0 (by decide) (by norm_num)).2⟩⟩

/-- Claim C8: `midi_to_freq 69` is exactly `440` (in the exact-arithmetic
model) and `midi_to_note 69` is the string `"A4"`. -/
theorem claim_c8 : midi_to_freq 69 = 440 ∧ midi_to_note 69 = "A4" := by
  constructor
  · unfold midi_to_freq A4_FREQ A4_MIDI
    norm_num
  · decide

/-- Claim C9: parsing is invariant under accidental spelling and letter case:
`"Db4"` and `"C#4"` give the same pitch number, `"A♯4"` parses identically to
`"A#4"`, the concrete case pairs agree, and in general changing the case of
the leading letter of any successfully parsed note does not change the
resulting pitch number. -/
theorem claim_c9 :
    (note_to_midi "Db4" = note_to_midi "C#4" ∧ note_to_midi "Db4" = .ok 61) ∧
    note_to_midi "A♯4" = note_to_midi "A#4" ∧
    (note_to_midi "a4" = note_to_midi "A4" ∧ note_to_midi "a#4" = note_to_midi "A#4") ∧
    (∀ c rest m, note_to_midi (String.mk (c :: rest)) = .ok m →
      note_to_midi (String.mk (c.toUpper :: rest)) = .ok m ∧
      note_to_midi (String.mk (c.toLower :: rest)) = .ok m) :=
  ⟨by decide, by decide, by decide, note_letter_case_insensitive⟩

/-- Witness for claim C9's general case-insensitivity part at `"a4"`/`"A4"`. -/
theorem claim_c9_witness :
    note_to_midi (String.mk ('a' :: ['4'])) = .ok 69 ∧
    note_to_midi (String.mk ('a'.toUpper :: ['4'])) = .ok 69 :=
  ⟨by decide, (claim_c9.2.2.2 'a' ['4'] 69 (by decide)).1⟩

